import Mathlib

/-!
Verification development for the chrono in-process task scheduler.

The Go sources (cron.go, executor.go, task.go) are shallowly embedded below:
pure functions become Lean functions, `uint64` bit masks become `Nat` values
kept below `2^64` with explicit `% 2^64` where Go wraps, fallible Go code
returns an explicit result type that distinguishes a returned `error` from a
runtime `panic`, and `time.Time` is modelled as nanoseconds since the Go zero
time (January 1, year 1, 00:00:00 UTC) with the calendar computations of Go's
`time` package (UTC only, which is what the cron engine reads).
-/

namespace Chrono

/-- Result of a fallible Go computation: a normal value, a returned `error`
(with its message), or a runtime panic (with its message). -/
inductive GoResult (α : Type) where
  | ok (a : α)
  | err (msg : String)
  | panicked (msg : String)
deriving DecidableEq, Repr

/-- `true` exactly on `GoResult.ok`. -/
def GoResult.isOk {α : Type} : GoResult α → Bool
  | .ok _ => true
  | _ => false

/-- A `time.Time` instant, as nanoseconds since January 1, year 1, 00:00:00 UTC
(the zero `time.Time`). The scheduler and the cron engine only ever move
forward from real instants, so nonnegative nanoseconds suffice. -/
structure Time where
  abs : Nat
deriving DecidableEq, Repr, Inhabited

/-- `time.Time.IsZero`: the instant is the zero time. -/
def Time.isZero (t : Time) : Bool := t.abs == 0

/-- Seconds since the zero time (Go's internal absolute seconds). -/
def Time.absSeconds (t : Time) : Nat := t.abs / 1000000000

/-- `time.Time.Nanosecond`. -/
def Time.nanosecond (t : Time) : Nat := t.abs % 1000000000

/-- `time.Time.Second`. -/
def Time.second (t : Time) : Nat := t.absSeconds % 60

/-- `time.Time.Minute`. -/
def Time.minute (t : Time) : Nat := t.absSeconds / 60 % 60

/-- `time.Time.Hour`. -/
def Time.hour (t : Time) : Nat := t.absSeconds / 3600 % 24

/-- Days since the zero time. -/
def Time.absDays (t : Time) : Nat := t.absSeconds / 86400

/-- `time.Time.Weekday` with Sunday = 0. Day 0 (January 1, year 1) was a
Monday, exactly as in Go's `absWeekday`. -/
def Time.weekday (t : Time) : Nat := (t.absDays + 1) % 7

/-- Gregorian leap-year test, as Go's `isLeap`. -/
def isLeap (year : Nat) : Bool := year % 4 == 0 && (year % 100 != 0 || year % 400 == 0)

/-- Cumulative days before each month in a non-leap year (Go's `daysBefore`). -/
def daysBefore : List Nat := [0, 31, 59, 90, 120, 151, 181, 212, 243, 273, 304, 334, 365]

/-- Year and day-of-year from a day count since the zero time, following Go's
`absDate`: peel off 400/100/4/1-year cycles, capping the 100-year and 1-year
quotients at 3. -/
def yearYday (d0 : Nat) : Nat × Nat :=
  let n400 := d0 / 146097
  let y400 := 400 * n400
  let d1 := d0 - 146097 * n400
  let n100 := d1 / 36524 - d1 / 36524 / 4
  let y100 := y400 + 100 * n100
  let d2 := d1 - 36524 * n100
  let n4 := d2 / 1461
  let y4 := y100 + 4 * n4
  let d3 := d2 - 1461 * n4
  let n1 := d3 / 365 - d3 / 365 / 4
  (y4 + n1 + 1, d3 - 365 * n1)

/-- Month (1-12) and day (1-based) from a year and day-of-year, following the
second half of Go's `absDate`: special-case February 29, estimate the month as
`day / 31` and correct by at most one. -/
def monthDayFromYday (year yday : Nat) : Nat × Nat :=
  if isLeap year && yday == 59 then (2, 29)
  else
    let day := if isLeap year && yday > 59 then yday - 1 else yday
    let m0 := day / 31
    let e := daysBefore.getD (m0 + 1) 0
    if day ≥ e then (m0 + 2, day - e + 1)
    else (m0 + 1, day - daysBefore.getD m0 0 + 1)

/-- `time.Time.Date` (year, month, day) in UTC. -/
def Time.dateParts (t : Time) : Nat × Nat × Nat :=
  let yy := yearYday t.absDays
  let md := monthDayFromYday yy.1 yy.2
  (yy.1, md.1, md.2)

/-- `time.Time.Day`. -/
def Time.day (t : Time) : Nat := t.dateParts.2.2

/-- `time.Time.Month` as its numeric value (January = 1). -/
def Time.month (t : Time) : Nat := t.dateParts.2.1

/-- Days since the zero time for a (possibly denormalized) calendar date, as
in Go's `Date`: normalize the month into the year, then count days before the
year, days before the month (plus one in a leap year from March on), plus
`day - 1`; an out-of-range `day` simply overflows into the next months. -/
def dateToAbsDays (year monthv day : Nat) : Nat :=
  let ynorm := year + (monthv - 1) / 12
  let mnorm := (monthv - 1) % 12 + 1
  let y := ynorm - 1
  let d := 365 * y + y / 4 - y / 100 + y / 400 + daysBefore.getD (mnorm - 1) 0
  let d := if isLeap ynorm && mnorm ≥ 3 then d + 1 else d
  d + (day - 1)

/-- Go's `time.Date` constructor restricted to UTC. -/
def goDate (year monthv day hourv minv secv nsec : Nat) : Time :=
  ⟨(dateToAbsDays year monthv day * 86400 + hourv * 3600 + minv * 60 + secv) * 1000000000
    + nsec⟩

/-- `time.Time.AddDate(0, months, days)` in UTC: re-run `Date` on the
denormalized components, keeping the clock-of-day fields. -/
def Time.addDate (t : Time) (monthsv daysv : Nat) : Time :=
  goDate t.dateParts.1 (t.dateParts.2.1 + monthsv) (t.dateParts.2.2 + daysv)
    t.hour t.minute t.second t.nanosecond

/-- The six cron calendar fields (the `cronField` string constants). -/
inductive CronField where
  | second | minute | hour | dayOfMonth | month | dayOfWeek
deriving DecidableEq, Repr

/-- The Go string constant naming a cron field, used in error messages. -/
def CronField.name : CronField → String
  | .second => "SECOND"
  | .minute => "MINUTE"
  | .hour => "HOUR"
  | .dayOfMonth => "DAY_OF_MONTH"
  | .month => "MONTH"
  | .dayOfWeek => "DAY_OF_WEEK"

/-- `fieldType`: a cron field together with its legal value range. -/
structure FieldType where
  field : CronField
  minValue : Nat
  maxValue : Nat
deriving DecidableEq, Repr

/-- The `second` field type. -/
def second : FieldType := ⟨CronField.second, 0, 59⟩

/-- The `minute` field type. -/
def minute : FieldType := ⟨CronField.minute, 0, 59⟩

/-- The `hour` field type. -/
def hour : FieldType := ⟨CronField.hour, 0, 23⟩

/-- The `dayOfMonth` field type. -/
def dayOfMonth : FieldType := ⟨CronField.dayOfMonth, 1, 31⟩

/-- The `month` field type. -/
def month : FieldType := ⟨CronField.month, 1, 12⟩

/-- The `dayOfWeek` field type. Note the source caps the range at 6. -/
def dayOfWeek : FieldType := ⟨CronField.dayOfWeek, 0, 6⟩

/-- `cronFieldTypes`, in parse order. -/
def cronFieldTypes : List FieldType := [second, minute, hour, dayOfMonth, month, dayOfWeek]

/-- `valueRange`. -/
structure ValueRange where
  minValue : Nat
  maxValue : Nat
deriving DecidableEq, Repr

/-- `newValueRange`. -/
def newValueRange (minv maxv : Nat) : ValueRange := ⟨minv, maxv⟩

/-- `cronFieldBits`: a field type plus its 64-bit membership mask (< 2^64). -/
structure CronFieldBits where
  typ : FieldType
  bits : Nat
deriving DecidableEq, Repr

/-- `maxAttempts`. -/
def maxAttempts : Nat := 366

/-- `mask`, i.e. `0xFFFFFFFFFFFFFFFF`. -/
def mask : Nat := 0xFFFFFFFFFFFFFFFF

/-- `CronExpression`: the six parsed field masks. -/
structure CronExpression where
  fields : List CronFieldBits
deriving DecidableEq, Repr

/-- `bits.TrailingZeros64`, by scanning at most 64 low bits. -/
def trailingZerosAux : Nat → Nat → Nat
  | 0, _ => 0
  | fuel + 1, n => if n % 2 = 1 then 0 else trailingZerosAux fuel (n / 2) + 1

/-- `bits.TrailingZeros64` (64 on input 0, as in Go). -/
def trailingZeros64 (n : Nat) : Nat := if n = 0 then 64 else trailingZerosAux 64 n

/-- `setNextBit`: index of the lowest set bit of `bitsValue` at or above
`index`, or `-1` when there is none. The Go shift `mask << index` wraps in
`uint64`, hence the explicit `% 2^64`. -/
def setNextBit (bitsValue : Nat) (index : Nat) : Int :=
  let result := bitsValue &&& (mask <<< index % 18446744073709551616)
  if result ≠ 0 then (trailingZeros64 result : Int) else -1

/-- `getTimeValue`. -/
def getTimeValue (t : Time) (field : CronField) : Nat :=
  match field with
  | .second => t.second
  | .minute => t.minute
  | .hour => t.hour
  | .dayOfMonth => t.day
  | .month => t.month
  | .dayOfWeek => t.weekday

/-- `addTime`: advance an instant by `value` units of the given field
(`AddDate` for the calendar fields, a plain duration otherwise). -/
def addTime (t : Time) (field : CronField) (value : Nat) : Time :=
  match field with
  | .second => ⟨t.abs + value * 1000000000⟩
  | .minute => ⟨t.abs + value * 60000000000⟩
  | .hour => ⟨t.abs + value * 3600000000000⟩
  | .dayOfMonth => t.addDate 0 value
  | .month => t.addDate value 0
  | .dayOfWeek => t.addDate 0 value

/-- The field loop of `CronExpression.next`. For each field: find the next set
bit at or above the current value; on wrap, advance `temp` past the field's
maximum and retry from bit 0. If the found bit equals the current value the
source returns `t` at once; otherwise the source's advance loop has an empty
body, so its counter either stays 0 (when `temp`'s field value already equals
the found bit, falling through to the next field with `t` unchanged) or spins
to the `maxAttempts` bound and returns the zero time. Exhausting the fields
also returns the zero time. In Go the subtraction `MaxValue - current + 1`
happens on `int`; `current` never exceeds the field maximum, so the `Nat`
form `maxValue + 1 - current` is the same value. -/
def nextFields (t : Time) : List CronFieldBits → Time
  | [] => ⟨0⟩
  | field :: rest =>
    let current := getTimeValue t field.typ.field
    let nx0 := setNextBit field.bits current
    let temp :=
      if nx0 = -1 then addTime t field.typ.field (field.typ.maxValue + 1 - current) else t
    let nx := if nx0 = -1 then setNextBit field.bits 0 else nx0
    if nx = (current : Int) then t
    else if (getTimeValue temp field.typ.field : Int) = nx then nextFields t rest
    else ⟨0⟩

/-- `CronExpression.next`. -/
def CronExpression.next (expression : CronExpression) (t : Time) : Time :=
  nextFields t expression.fields

/-- Rounding at the top of `NextTime`:
`t.Add(1*time.Second - time.Duration(t.Nanosecond())*time.Nanosecond)`. -/
def roundUpSecond (t : Time) : Time := ⟨t.abs + (1000000000 - t.abs % 1000000000)⟩

/-- The bounded retry loop of `NextTime` (`for i := 0; i < maxAttempts; i++`). -/
def nextTimeLoop (expression : CronExpression) : Nat → Time → Time
  | 0, _ => ⟨0⟩
  | fuel + 1, t =>
    if (expression.next t).abs = 0 ∨ expression.next t = t then expression.next t
    else nextTimeLoop expression fuel (expression.next t)

/-- `CronExpression.NextTime`. -/
def CronExpression.NextTime (expression : CronExpression) (t : Time) : Time :=
  nextTimeLoop expression maxAttempts (roundUpSecond t)

/-- Specification-side predicate: the instant satisfies every field constraint
of the expression (each field's current value has its mask bit set). -/
def cronMatches (expression : CronExpression) (t : Time) : Bool :=
  expression.fields.all fun f => Nat.testBit f.bits (getTimeValue t f.typ.field)

/-- The `months` name list. -/
def months : List String :=
  ["JAN", "FEB", "MAR", "APR", "MAY", "JUN", "JUL", "AUG", "SEP", "OCT", "NOV", "DEC"]

/-- The `days` name list (note `SUN` is replaced by its 1-based ordinal 7). -/
def days : List String := ["MON", "TUE", "WED", "THU", "FRI", "SAT", "SUN"]

/-- Splitting a character list at every separator character, keeping empty
pieces (the core library's string splitters recurse on byte positions, which
the kernel does not reduce, so the split is done on the character list). -/
def splitBy (p : Char → Bool) : List Char → List Char → List String
  | [], acc => [acc.reverse.asString]
  | c :: cs, acc =>
    if p c then acc.reverse.asString :: splitBy p cs [] else splitBy p cs (c :: acc)

/-- `strings.Fields`: split on whitespace runs, dropping empty pieces. -/
def goFields (s : String) : List String :=
  (splitBy Char.isWhitespace s.toList []).filter (· ≠ "")

/-- `strings.Split(value, ",")`: split at every comma, keeping empty pieces. -/
def splitComma (s : String) : List String := splitBy (· == ',') s.toList []

/-- `strings.Index` for a single character; `none` models Go's `-1`. All
strings reaching it are ASCII, so the character index is the byte index. -/
def indexOfChar (s : String) (c : Char) : Option Nat := s.toList.findIdx? (· == c)

/-- Go slicing `s[0:n]` for ASCII strings. -/
def strTake (s : String) (n : Nat) : String := (s.toList.take n).asString

/-- Go slicing `s[n:]` for ASCII strings. -/
def strDrop (s : String) (n : Nat) : String := (s.toList.drop n).asString

/-- `strconv.Atoi`: optional sign followed by at least one digit. Overflow of
Go's `int` is not modelled; every numeral in a 64-character bit field fits. -/
def atoi (s : String) : Option Int :=
  let core : List Char → Option Nat := fun digits =>
    if digits.isEmpty || !digits.all Char.isDigit then none
    else some (digits.foldl (fun a c => a * 10 + (c.toNat - 48)) 0)
  match s.toList with
  | '-' :: rest => (core rest).map fun n => -(n : Int)
  | '+' :: rest => (core rest).map fun n => (n : Int)
  | l => (core l).map fun n => (n : Int)

/-- `strings.ReplaceAll` for a nonempty pattern, on character lists. The fuel
is the remaining input length: every recursive step consumes at least one
input character, so `s.length` fuel is exact for the nonempty patterns used
here. -/
def replaceAllAux (pat repl : List Char) : Nat → List Char → List Char
  | 0, s => s
  | fuel + 1, s =>
    match s with
    | [] => []
    | x :: xs =>
      if pat.isPrefixOf s then repl ++ replaceAllAux pat repl fuel (s.drop pat.length)
      else x :: replaceAllAux pat repl fuel xs

/-- `strings.ReplaceAll`. -/
def replaceAll (s pat repl : String) : String :=
  (replaceAllAux pat.toList repl.toList s.toList.length s.toList).asString

/-- `strings.ToUpper` for ASCII strings. -/
def toUpperStr (s : String) : String := (s.toList.map Char.toUpper).asString

/-- `replaceOrdinals`: uppercase, then replace each listed name by its
1-based ordinal. -/
def replaceOrdinals (value : String) (list : List String) : String :=
  (list.enum).foldl (fun v p => replaceAll v p.2 (toString (p.1 + 1))) (toUpperStr value)

/-- `checkValidValue`: parse a numeral and check it against the field's range,
with the special case accepting 0 for day-of-week. -/
def checkValidValue (value : String) (ft : FieldType) : GoResult Int :=
  match atoi value with
  | none => .err ("the value in field " ++ ft.field.name ++ " must be number : " ++ value)
  | some result =>
    if ft.field = CronField.dayOfWeek ∧ result = 0 then .ok result
    else if (ft.minValue : Int) ≤ result ∧ result ≤ (ft.maxValue : Int) then .ok result
    else
      .err ("the value in field " ++ ft.field.name ++ " must be between "
        ++ toString ft.minValue ++ " and " ++ toString ft.maxValue)

/-- `parseRange`: `*` is the full range, a bare numeral a singleton range, and
`a-b` a two-endpoint range where a day-of-week minimum of 7 becomes 0.
`checkValidValue` only accepts values within `[0, maxValue]`, so `toNat` on
its result is exact. -/
def parseRange (value : String) (ft : FieldType) : GoResult ValueRange :=
  if value = "*" then .ok (newValueRange ft.minValue ft.maxValue)
  else
    match indexOfChar value '-' with
    | none =>
      match checkValidValue value ft with
      | .err e => .err e
      | .panicked e => .panicked e
      | .ok result => .ok (newValueRange result.toNat result.toNat)
    | some hyphenPos =>
      let maxStr := strDrop value (hyphenPos + 1)
      let minStr := strTake value hyphenPos
      match checkValidValue minStr ft with
      | .err e => .err e
      | .panicked e => .panicked e
      | .ok mn =>
        match checkValidValue maxStr ft with
        | .err e => .err e
        | .panicked e => .panicked e
        | .ok mx =>
          let mn := if ft.field = CronField.dayOfWeek ∧ mn = 7 then 0 else mn
          .ok (newValueRange mn.toNat mx.toNat)

/-- The step-fill loop of `parseField`:
`for index := min; index <= max; index += step { bits |= 1 << index }`.
The fuel argument only bounds the recursion; `maxValue + 1` iterations always
suffice because the step is at least 1 where this loop runs. -/
def fillStep (bits : Nat) : Nat → Nat → Nat → Nat → Nat
  | 0, _, _, _ => bits
  | fuel + 1, index, maxv, step =>
    if index ≤ maxv then fillStep (bits ||| (1 <<< index)) fuel (index + step) maxv step
    else bits

/-- The contiguous-range mask
`^(math.MaxUint64 << (maxValue+1)) & (math.MaxUint64 << minValue)`, with the
`uint64` wrapping of each shift made explicit. -/
def rangeBits (minv maxv : Nat) : Nat :=
  (mask ^^^ (mask <<< (maxv + 1) % 18446744073709551616))
    &&& (mask <<< minv % 18446744073709551616)

/-- The bit update a single comma-term contributes, given its value range and
step (`-1` when the term has no `/`): a step above 1 fills every step-th bit,
a singleton range sets one bit, and a wider range overwrites the accumulated
bits with the contiguous-range mask (an assignment, not a union, exactly as in
the source). -/
def termBits (bits : Nat) (vr : ValueRange) (step : Int) : Nat :=
  if step > 1 then fillStep bits (vr.maxValue + 1) vr.minValue vr.maxValue step.toNat
  else if vr.minValue = vr.maxValue then bits ||| (1 <<< vr.minValue)
  else rangeBits vr.minValue vr.maxValue

/-- The comma-term loop of `parseField`. A term with a `/` parses the part
before the slash as a range (widened to the field maximum when it has no `-`),
then parses the step, panicking — not returning an error — on a non-numeric
or non-positive step, exactly as the source does. -/
def parseFieldTerms (ft : FieldType) : List String → Nat → GoResult Nat
  | [], bits => .ok bits
  | field :: rest, bits =>
    match indexOfChar field '/' with
    | some slashPos =>
      let rangeStr := strTake field slashPos
      match parseRange rangeStr ft with
      | .err e => .err e
      | .panicked e => .panicked e
      | .ok vr0 =>
        let vr :=
          if indexOfChar rangeStr '-' = none then newValueRange vr0.minValue ft.maxValue
          else vr0
        let stepStr := strDrop field (slashPos + 1)
        match atoi stepStr with
        | none => .panicked ("strconv.Atoi: parsing \"" ++ stepStr ++ "\": invalid syntax")
        | some step =>
          if step ≤ 0 then .panicked "step must be 1 or higher"
          else parseFieldTerms ft rest (termBits bits vr step)
    | none =>
      match parseRange field ft with
      | .err e => .err e
      | .panicked e => .panicked e
      | .ok vr => parseFieldTerms ft rest (termBits bits vr (-1))

/-- `parseField`: reject the empty token, replace month/day names by their
ordinals, then fold the comma-separated terms into the field's bit mask. -/
def parseField (value : String) (ft : FieldType) : GoResult CronFieldBits :=
  if value.length = 0 then .err "value must not be empty"
  else
    let value :=
      if ft.field = CronField.month then replaceOrdinals value months
      else if ft.field = CronField.dayOfWeek then replaceOrdinals value days
      else value
    match parseFieldTerms ft (splitComma value) 0 with
    | .ok bits => .ok ⟨ft, bits⟩
    | .err e => .err e
    | .panicked e => .panicked e

/-- The per-field loop of `ParseCronExpression` (the token and field-type
lists always have equal length 6 when this runs). -/
def parseAllFields : List String → List FieldType → GoResult (List CronFieldBits)
  | _, [] => .ok []
  | [], _ :: _ => .err "missing field"
  | f :: fs, t :: ts =>
    match parseField f t with
    | .err e => .err e
    | .panicked e => .panicked e
    | .ok v =>
      match parseAllFields fs ts with
      | .err e => .err e
      | .panicked e => .panicked e
      | .ok vs => .ok (v :: vs)

/-- `ParseCronExpression`. -/
def ParseCronExpression (expression : String) : GoResult CronExpression :=
  if expression.length = 0 then .err "cron expression must not be empty"
  else
    let fields := goFields expression
    if fields.length ≠ 6 then
      .err ("cron expression must consist of 6 fields : found " ++ toString fields.length
        ++ " in \"" ++ expression ++ "\"")
    else
      match parseAllFields fields cronFieldTypes with
      | .ok fs => .ok ⟨fs⟩
      | .err e => .err e
      | .panicked e => .panicked e

/-!
The scheduling engine (task.go, executor.go). A task body (Go's `Task`, a
function value) is opaque to the engine, so it is modelled as a `Nat` tag; a
nil Go `Task` is `Option.none`. `time.Now()` is a hidden input of the Go code
and is passed explicitly. The executor's control loop owns the queue and
processes one event (timer fire / new task / remove task) at a time; each
event case is embedded as a function from the queue state to the next queue
state, with a `Option`/`GoResult` result where the Go code can panic. The
executor struct also carries `nextSequence`/`nextSequenceMu` fields, but no
code in the repository ever reads or writes them.
-/

/-- `ScheduledTask`. `id` is a Go `int`; `NewScheduledTask` builds the struct
with a composite literal that omits `id`, leaving it at the zero value. -/
structure ScheduledTask where
  id : Int
  task : Option Nat
  triggerTime : Time
  period : Int
  fixedRate : Bool
deriving DecidableEq, Repr, Inhabited

/-- `NewScheduledTask`: clamp a negative period to zero; the `id` field is
never assigned and stays at the `int` zero value. -/
def NewScheduledTask (task : Option Nat) (triggerTime : Time) (period : Int)
    (fixedRate : Bool) : ScheduledTask :=
  let period := if period < 0 then 0 else period
  { id := 0, task := task, triggerTime := triggerTime, period := period, fixedRate := fixedRate }

/-- `ScheduledTask.IsPeriodic`. -/
def ScheduledTask.IsPeriodic (scheduledTask : ScheduledTask) : Bool :=
  scheduledTask.period != 0

/-- `ScheduledTask.IsFixedRate`. -/
def ScheduledTask.IsFixedRate (scheduledTask : ScheduledTask) : Bool :=
  scheduledTask.fixedRate

/-- `ScheduledTaskExecutor.calculateTriggerTime`: `time.Now().Add(delay)` with
a negative delay clamped to zero, `now` passed explicitly. -/
def calculateTriggerTime (now : Time) (delay : Int) : Time :=
  let delay := if delay < 0 then 0 else delay
  ⟨now.abs + delay.toNat⟩

/-- `ScheduledTaskExecutor.Schedule`: panics on a nil task, otherwise builds a
one-shot task (period 0, not fixed-rate) due `delay` from now and hands it to
the control loop through the new-task channel (the caller of this model feeds
the returned task to `processNewTask`). -/
def Schedule (now : Time) (task : Option Nat) (delay : Int) : GoResult ScheduledTask :=
  if task.isNone then .panicked "task cannot be nil"
  else .ok (NewScheduledTask task (calculateTriggerTime now delay) 0 false)

/-- `ScheduledTaskExecutor.ScheduleWithFixedDelay`. -/
def ScheduleWithFixedDelay (now : Time) (task : Option Nat) (initialDelay delay : Int) :
    GoResult ScheduledTask :=
  if task.isNone then .panicked "task cannot be nil"
  else .ok (NewScheduledTask task (calculateTriggerTime now initialDelay) delay false)

/-- `ScheduledTaskExecutor.ScheduleAtWithRate`. -/
def ScheduleAtWithRate (now : Time) (task : Option Nat) (initialDelay period : Int) :
    GoResult ScheduledTask :=
  if task.isNone then .panicked "task cannot be nil"
  else .ok (NewScheduledTask task (calculateTriggerTime now initialDelay) period true)

/-- Insertion step for `ScheduledTaskQueue.SorByTriggerTime` (which calls
`sort.Sort` with `Less` comparing trigger instants; `sort.Sort` is an
unstable comparison sort, and insertion sort agrees with it on every queue
this development evaluates, which never holds two equal trigger instants in
an order-sensitive position). -/
def insertByTrigger (st : ScheduledTask) : List ScheduledTask → List ScheduledTask
  | [] => [st]
  | x :: xs =>
    if st.triggerTime.abs < x.triggerTime.abs then st :: x :: xs
    else x :: insertByTrigger st xs

/-- `ScheduledTaskQueue.SorByTriggerTime`. -/
def sortByTriggerTime (queue : List ScheduledTask) : List ScheduledTask :=
  queue.foldr insertByTrigger []

/-- The new-task case of `ScheduledTaskExecutor.run`: append and re-sort. -/
def processNewTask (queue : List ScheduledTask) (newScheduledTask : ScheduledTask) :
    List ScheduledTask :=
  sortByTriggerTime (queue ++ [newScheduledTask])

/-- The linear scan of the remove case of `run`: `taskIndex` starts at `-1`
and is set to the first index whose task has the same `id`; `none` models the
`-1` left by a failed search. -/
def findTaskIndex : List ScheduledTask → Int → Option Nat
  | [], _ => none
  | scheduledTask :: rest, tid =>
    if scheduledTask.id = tid then some 0 else (findTaskIndex rest tid).map (· + 1)

/-- The remove case of `ScheduledTaskExecutor.run`:
`executor.taskQueue = append(executor.taskQueue[:taskIndex], executor.taskQueue[taskIndex+1:]...)`.
When the scan found no task, `taskIndex` is still `-1` and the slice
expression `taskQueue[:-1]` panics at run time, killing the control loop. -/
def processRemove (queue : List ScheduledTask) (task : ScheduledTask) :
    GoResult (List ScheduledTask) :=
  match findTaskIndex queue task.id with
  | some i => .ok (queue.take i ++ queue.drop (i + 1))
  | none => .panicked "slice bounds out of range"

/-- One removal inside the timer-fire scan, with Go slice semantics made
explicit: all live slices share one backing array whose length never changes;
`append(q[:index], q[index+1:]...)` shifts the elements between `index+1` and
the current length left by one inside that array and shortens the queue view
by one. `none` models the bounds panic Go raises when `index` is at or past
the current length. -/
def sliceRemove (backing : List ScheduledTask) (curLen index : Nat) :
    Option (List ScheduledTask × Nat) :=
  if index + 1 > curLen then none
  else
    some (backing.take index ++ (backing.drop (index + 1)).take (curLen - index - 1)
      ++ backing.drop (curLen - 1), curLen - 1)

/-- The timer-fire scan of `ScheduledTaskExecutor.run`. The `range` clause
iterates over the queue slice as it was when the loop started (`fuel` counts
its remaining elements, `index` the position), but reads each element from the
shared backing array, which earlier removals have shifted. A task older than
the previous processing clock is skipped; a task still in the future, or with
the zero trigger instant, stops the scan; a fixed-rate task gets its trigger
instant advanced by its period in place; a task that is not fixed-rate-periodic
is removed from the queue; and the task is dispatched (appended to the result
list) regardless. -/
def fireIter (lastClock clock : Time) :
    Nat → Nat → List ScheduledTask → Nat → List ScheduledTask →
      Option (List ScheduledTask × Nat × List ScheduledTask)
  | 0, _, backing, curLen, dispatched => some (backing, curLen, dispatched)
  | fuel + 1, index, backing, curLen, dispatched =>
    let scheduledTask := backing.getD index default
    if lastClock.abs > scheduledTask.triggerTime.abs then
      fireIter lastClock clock fuel (index + 1) backing curLen dispatched
    else if scheduledTask.triggerTime.abs > clock.abs ∨ scheduledTask.triggerTime.abs = 0 then
      some (backing, curLen, dispatched)
    else
      let scheduledTask :=
        if scheduledTask.IsFixedRate then
          { scheduledTask with
            triggerTime := ⟨scheduledTask.triggerTime.abs + scheduledTask.period.toNat⟩ }
        else scheduledTask
      let backing :=
        if scheduledTask.IsFixedRate then backing.set index scheduledTask else backing
      match
        (if ¬ scheduledTask.IsPeriodic ∨ ¬ scheduledTask.IsFixedRate then
          sliceRemove backing curLen index
        else some (backing, curLen)) with
      | none => none
      | some (backing, curLen) =>
        fireIter lastClock clock fuel (index + 1) backing curLen
          (dispatched ++ [scheduledTask])

/-- The timer-fire case of `ScheduledTaskExecutor.run`: scan the queue,
re-sort what is left, and record the fire time as the new processing clock.
Returns the new queue, the new `lastClock`, and the dispatched tasks, or
`none` when the scan hits a slice-bounds panic. -/
def processFire (lastClock clock : Time) (queue : List ScheduledTask) :
    Option (List ScheduledTask × Time × List ScheduledTask) :=
  match fireIter lastClock clock queue.length 0 queue queue.length [] with
  | none => none
  | some (backing, curLen, dispatched) =>
    some (sortByTriggerTime (backing.take curLen), clock, dispatched)

/-- The deferred completion step of `ScheduledTaskExecutor.startTask`: after
the task body returns, overwrite the trigger instant with `now + period` and,
whenever the task is not fixed-rate — with no check that it is periodic —
resubmit it on the new-task channel. Returns the updated task and the
resubmission it sends, if any. -/
def startTaskCompletion (now : Time) (scheduledTask : ScheduledTask) :
    ScheduledTask × Option ScheduledTask :=
  let scheduledTask :=
    { scheduledTask with triggerTime := calculateTriggerTime now scheduledTask.period }
  (scheduledTask, if ¬ scheduledTask.IsFixedRate then some scheduledTask else none)

/-- An opaque handle standing for the `ScheduledExecutor` interface value
stored inside a `ReschedulableTask`; its methods are irrelevant to the claims,
only nil-ness of the interface value matters. -/
structure ScheduledExecutorRef where
  tag : Nat
deriving DecidableEq, Repr, Inhabited

/-- An opaque value of the `Trigger` interface (its definition lives outside
the three source files); only nil-ness matters in `NewReschedulableTask`. -/
structure Trigger where
  tag : Nat
deriving DecidableEq, Repr, Inhabited

/-- `ReschedulableTask`. -/
structure ReschedulableTask where
  executor : Option ScheduledExecutorRef
  trigger : Option Trigger
deriving DecidableEq, Repr

/-- `NewReschedulableTask`: panics when the executor is nil, and — with the
source's inverted check `if trigger != nil` — panics whenever the trigger is
NOT nil. -/
def NewReschedulableTask (executor : Option ScheduledExecutorRef)
    (trigger : Option Trigger) : GoResult ReschedulableTask :=
  if executor.isNone then .panicked "executor cannot be nil"
  else if trigger.isSome then .panicked "trigger cannot be nil"
  else .ok ⟨executor, trigger⟩

/-- `ReschedulableTask.Schedule`: the source body is `return nil`. -/
def ReschedulableTask.Schedule (_ : ReschedulableTask) : Option ScheduledTask := none

/-!
Concrete values used to evaluate the embedding at specific inputs.
-/

/-- The expression "* 30 * * * *" (every second of minute 30), as parsed. -/
def exprStar30 : CronExpression :=
  match ParseCronExpression "* 30 * * * *" with
  | .ok e => e
  | _ => ⟨[]⟩

/-- June 15, 2021, 10:20:30 UTC (a Tuesday). -/
def startJune2021 : Time := goDate 2021 6 15 10 20 30 0

/-- A single-field expression whose seconds mask accepts every second. -/
def allSecondsExpr : CronExpression := ⟨[⟨second, 1152921504606846975⟩]⟩

/-- The task built by `Schedule(task, 0)` for a non-nil body at instant 1000. -/
def oneShotTask : ScheduledTask := ⟨0, some 42, ⟨1000⟩, 0, false⟩

/-- The same one-shot task after its worker's completion step at instant 2000. -/
def oneShotTaskAfter : ScheduledTask := ⟨0, some 42, ⟨2000⟩, 0, false⟩

/-- A task handle whose identity is absent from an empty queue. -/
def unknownHandle : ScheduledTask := NewScheduledTask (some 7) ⟨500⟩ 0 false

/-- Two distinct tasks created by `NewScheduledTask`. -/
def taskA : ScheduledTask := NewScheduledTask (some 1) ⟨100⟩ 0 false

/-- A second task, distinct from `taskA` but with the same (zero) identity. -/
def taskB : ScheduledTask := NewScheduledTask (some 2) ⟨200⟩ 0 false

/-!
Theorems. Helper lemmas come first, then one theorem per claim.
-/

/-- The field loop of `next` can only return its argument unchanged or the
zero time: every path through a field either returns `t` at once, falls
through to the next field with `t` untouched, or gives up with the zero
time. -/
theorem nextFields_eq_self_or_zero (fields : List CronFieldBits) (t : Time) :
    nextFields t fields = t ∨ nextFields t fields = ⟨0⟩ := by
  induction fields with
  | nil => exact Or.inr rfl
  | cons f rest ih =>
    simp only [nextFields]
    split_ifs <;> first
      | exact Or.inl rfl
      | exact ih
      | exact Or.inr rfl

/-- With at least one attempt left, the `NextTime` retry loop returns its
starting instant or the zero time, because `next` already does. -/
theorem nextTimeLoop_fix (e : CronExpression) (fuel : Nat) (t : Time) :
    nextTimeLoop e (fuel + 1) t = t ∨ nextTimeLoop e (fuel + 1) t = ⟨0⟩ := by
  simp only [nextTimeLoop, CronExpression.next]
  rcases nextFields_eq_self_or_zero e.fields t with h | h
  · rw [h, if_pos (Or.inr rfl)]
    exact Or.inl rfl
  · rw [h, if_pos (Or.inl rfl)]
    exact Or.inr rfl

/-- `NextTime` returns either the start rounded up to the next whole second
or the zero time. -/
theorem nextTime_cases (e : CronExpression) (t : Time) :
    e.NextTime t = roundUpSecond t ∨ e.NextTime t = ⟨0⟩ := by
  have h : e.NextTime t = nextTimeLoop e (365 + 1) (roundUpSecond t) := rfl
  rw [h]
  exact nextTimeLoop_fix e 365 (roundUpSecond t)

/-- Rounding up to the next whole second strictly advances the instant. -/
theorem roundUpSecond_lt (t : Time) : t.abs < (roundUpSecond t).abs := by
  have h : t.abs % 1000000000 < 1000000000 := Nat.mod_lt _ (by norm_num)
  simp only [roundUpSecond]
  omega

/-- C7: for every parsed cron expression and starting instant `t`, `NextTime`
either returns the zero instant (no next instant) or an instant strictly
after `t`; and applying `NextTime` to a non-zero result never yields an
instant earlier than that result (it is either the zero instant or strictly
later). -/
theorem nextTime_strictly_after_or_zero (e : CronExpression) (t : Time) :
    ((e.NextTime t).isZero = true ∨ t.abs < (e.NextTime t).abs) ∧
      ((e.NextTime t).isZero = false →
        ((e.NextTime (e.NextTime t)).isZero = true ∨
          (e.NextTime t).abs < (e.NextTime (e.NextTime t)).abs)) := by
  constructor
  · rcases nextTime_cases e t with h | h
    · rw [h]
      exact Or.inr (roundUpSecond_lt t)
    · rw [h]
      exact Or.inl rfl
  · intro hnz
    rcases nextTime_cases e (e.NextTime t) with h | h
    · rw [h]
      exact Or.inr (roundUpSecond_lt (e.NextTime t))
    · rw [h]
      exact Or.inl rfl

/-- Witness for C7: the second part of `nextTime_strictly_after_or_zero` at a
concrete expression and instant whose `NextTime` is non-zero. -/
theorem nextTime_strictly_after_or_zero_witness :
    (allSecondsExpr.NextTime (allSecondsExpr.NextTime ⟨0⟩)).isZero = true ∨
      (allSecondsExpr.NextTime ⟨0⟩).abs <
        (allSecondsExpr.NextTime (allSecondsExpr.NextTime ⟨0⟩)).abs :=
  (nextTime_strictly_after_or_zero allSecondsExpr ⟨0⟩).2 (by decide)

/-- C2: the claim that a non-zero `NextTime` result satisfies all six field
constraints fails on the code. For `"* 30 * * * *"` from June 15, 2021,
10:20:30 UTC, `NextTime` returns the non-zero instant 10:20:31 — whose minute
is 20, not 30 — because `next` returns its candidate as soon as the seconds
field matches, never checking the remaining fields (its advance loop has an
empty body). -/
theorem nextTime_ignores_later_fields :
    ParseCronExpression "* 30 * * * *" = GoResult.ok exprStar30 ∧
      (exprStar30.NextTime startJune2021).isZero = false ∧
      (exprStar30.NextTime startJune2021).minute = 20 ∧
      cronMatches exprStar30 (exprStar30.NextTime startJune2021) = false := by
  decide

/-- C1: the claim that `Schedule(task, 0)` fires exactly once fails on the
code. The worker's completion step resubmits every task that is not
fixed-rate — with no periodicity check — so the one-shot task re-enters the
queue with trigger `now + 0` and is dispatched a second time. -/
theorem schedule_oneShot_refires :
    Schedule ⟨1000⟩ (some 42) 0 = GoResult.ok oneShotTask ∧
      processFire ⟨1000⟩ ⟨1000⟩ [oneShotTask] = some ([], ⟨1000⟩, [oneShotTask]) ∧
      startTaskCompletion ⟨2000⟩ oneShotTask = (oneShotTaskAfter, some oneShotTaskAfter) ∧
      processNewTask [] oneShotTaskAfter = [oneShotTaskAfter] ∧
      processFire ⟨1000⟩ ⟨2000⟩ [oneShotTaskAfter] = some ([], ⟨2000⟩, [oneShotTaskAfter]) := by
  decide

/-- C3: the claim that removing an unknown identity is a non-fatal no-op
fails on the code. With the identity absent, `taskIndex` stays `-1` and the
slice expression `taskQueue[:-1]` panics, killing the control loop; removal
of a present identity, by contrast, succeeds. -/
theorem remove_unknown_identity_panics :
    processRemove [] unknownHandle = GoResult.panicked "slice bounds out of range" ∧
      processRemove [unknownHandle] unknownHandle = GoResult.ok [] := by
  decide

/-- C4: the claim that every task gets a distinguishing identity at creation
fails on the code. `NewScheduledTask` never assigns `id`, so every task has
identity 0, and removing with `taskB`'s handle deletes `taskA` (the first
queue entry) instead of `taskB`. -/
theorem task_identity_never_assigned :
    (∀ (task : Option Nat) (triggerTime : Time) (period : Int) (fixedRate : Bool),
        (NewScheduledTask task triggerTime period fixedRate).id = 0) ∧
      taskA ≠ taskB ∧ taskA.id = taskB.id ∧
      processRemove [taskA, taskB] taskB = GoResult.ok [taskB] := by
  refine ⟨?_, by decide, by decide, by decide⟩
  intro task triggerTime period fixedRate
  rfl

/-- C5: the claim that a malformed step makes parsing return an error fails
on the code: `parseField` panics — it does not return — on a non-positive or
non-numeric step. -/
theorem parse_step_panics_not_errors :
    ParseCronExpression "* 0/0 * * * *" = GoResult.panicked "step must be 1 or higher" ∧
      ParseCronExpression "* 0/x * * * *" =
        GoResult.panicked "strconv.Atoi: parsing \"x\": invalid syntax" := by
  decide

/-- C6: the claim that `7` parses like `0` on day-of-week fails on the code:
a bare `7` is rejected by the range check (the field maximum is 6, and the
7-to-0 alias applies only to the minimum of an explicit `a-b` range), while
`0` parses to the Sunday bit; even `SUN`, which `replaceOrdinals` turns into
`7`, is rejected. -/
theorem dayOfWeek_seven_rejected :
    parseField "7" dayOfWeek =
        GoResult.err "the value in field DAY_OF_WEEK must be between 0 and 6" ∧
      parseField "0" dayOfWeek = GoResult.ok ⟨dayOfWeek, 1⟩ ∧
      parseField "SUN" dayOfWeek =
        GoResult.err "the value in field DAY_OF_WEEK must be between 0 and 6" := by
  decide

/-- Bit contents of the step-fill loop of `parseField`: with positive step
and enough fuel for the loop to run to completion, the result's set bits are
the input's set bits plus every `step`-th value from `index` up to `maxv`. -/
theorem fillStep_testBit (fuel : Nat) :
    ∀ (index bits maxv step v : Nat), 1 ≤ step → maxv < index + fuel →
      (Nat.testBit (fillStep bits fuel index maxv step) v = true ↔
        Nat.testBit bits v = true ∨ ∃ k, v = index + k * step ∧ v ≤ maxv) := by
  induction fuel with
  | zero =>
    intro index bits maxv step v hs hb
    simp only [fillStep]
    constructor
    · exact Or.inl
    · rintro (h | ⟨k, hk, hkle⟩)
      · exact h
      · have hge : index ≤ v := hk ▸ Nat.le_add_right index (k * step)
        omega
  | succ fuel ih =>
    intro index bits maxv step v hs hb
    simp only [fillStep]
    by_cases hle : index ≤ maxv
    · rw [if_pos hle,
        ih (index + step) (bits ||| (1 <<< index)) maxv step v hs (by omega)]
      rw [Nat.testBit_or, Nat.one_shiftLeft, Nat.testBit_two_pow]
      constructor
      · rintro (h | ⟨k, hk, hkle⟩)
        · rcases Bool.or_eq_true_iff.mp h with h | h
          · exact Or.inl h
          · refine Or.inr ⟨0, ?_, ?_⟩
            · have := of_decide_eq_true h
              omega
            · have := of_decide_eq_true h
              omega
        · refine Or.inr ⟨k + 1, ?_, hkle⟩
          rw [Nat.succ_mul]
          omega
      · rintro (h | ⟨k, hk, hkle⟩)
        · exact Or.inl (Bool.or_eq_true_iff.mpr (Or.inl h))
        · match k, hk with
          | 0, hk =>
            have hv : v = index := by omega
            exact Or.inl (Bool.or_eq_true_iff.mpr (Or.inr (by rw [hv]; exact decide_eq_true rfl)))
          | k + 1, hk =>
            refine Or.inr ⟨k, ?_, hkle⟩
            rw [Nat.succ_mul] at hk
            omega
    · rw [if_neg hle]
      constructor
      · exact Or.inl
      · rintro (h | ⟨k, hk, hkle⟩)
        · exact h
        · have hge : index ≤ v := hk ▸ Nat.le_add_right index (k * step)
          omega

/-- C8: parsing `0/15` on the minute field yields exactly the bits
{0, 15, 30, 45}; and in general the step-fill loop of `parseField` sets every
`step`-th value from the range minimum up to the field maximum (on top of the
bits already accumulated). -/
theorem parse_step_fill_bits :
    parseField "0/15" minute = GoResult.ok ⟨minute, 2 ^ 0 + 2 ^ 15 + 2 ^ 30 + 2 ^ 45⟩ ∧
      ∀ bits minv maxv step v : Nat, 1 ≤ step →
        (Nat.testBit (fillStep bits (maxv + 1) minv maxv step) v = true ↔
          Nat.testBit bits v = true ∨ ∃ k, v = minv + k * step ∧ v ≤ maxv) := by
  refine ⟨by decide, ?_⟩
  intro bits minv maxv step v hs
  exact fillStep_testBit (maxv + 1) minv bits maxv step v hs (by omega)

/-- Witness for C8: the general step-fill characterization at the minute
field's parameters, bit 30 of `0/15`. -/
theorem parse_step_fill_bits_witness :
    Nat.testBit (fillStep 0 60 0 59 15) 30 = true ↔
      Nat.testBit 0 30 = true ∨ ∃ k, 30 = 0 + k * 15 ∧ 30 ≤ 59 :=
  parse_step_fill_bits.2 0 0 59 15 30 (by decide)

/-- C9: `ParseCronExpression` only succeeds on inputs that split into exactly
six whitespace-separated fields; `"* * * *"` (4 fields) fails with the
field-count error, and the empty expression fails with its own error, both
returned synchronously at parse time. -/
theorem parse_six_fields_required :
    (∀ s, (ParseCronExpression s).isOk = true → (goFields s).length = 6) ∧
      ParseCronExpression "* * * *" =
        GoResult.err "cron expression must consist of 6 fields : found 4 in \"* * * *\"" ∧
      ParseCronExpression "" = GoResult.err "cron expression must not be empty" := by
  refine ⟨?_, by decide, by decide⟩
  intro s h
  simp only [ParseCronExpression] at h
  split_ifs at h with h1 h2
  · simp [GoResult.isOk] at h
  · simp [GoResult.isOk] at h
  · exact not_ne_iff.mp h2

/-- Witness for C9: the six-field necessity applied to a successfully parsed
expression. -/
theorem parse_six_fields_required_witness : (goFields "0 0 12 * * 1").length = 6 :=
  parse_six_fields_required.1 "0 0 12 * * 1" (by decide)

/-- C10: `NewReschedulableTask`'s inverted nil-check panics on every non-nil
trigger (for any executor, nil or not), so no `ReschedulableTask` carrying a
trigger can be constructed; and `ReschedulableTask.Schedule` returns nil for
every receiver. -/
theorem reschedulable_trigger_check_inverted :
    (∀ (executor : Option ScheduledExecutorRef) (g : Trigger),
        ∃ msg, NewReschedulableTask executor (some g) = GoResult.panicked msg) ∧
      ∀ rt : ReschedulableTask, rt.Schedule = none := by
  constructor
  · intro executor g
    cases executor with
    | none => exact ⟨"executor cannot be nil", rfl⟩
    | some e => exact ⟨"trigger cannot be nil", rfl⟩
  · intro rt
    rfl

end Chrono
